import Mathlib

/-!
Verification of the pin lifecycle manager of a messaging-channel IPFS pinning
bot.  The embedding models, faithfully to the source:

* the pin store (a SQLite table keyed by CID) as an association list,
* the CID extractor (two regular patterns tried in order, leftmost match),
* the message handler (dedup set, upsert-before-pin ordering, per-branch
  events emitted as a trace),
* the expiry sweep (per-CID try/except around unpin, record delete and file
  delete),
* the operator tool's unpin operation (best-effort gateway unpin followed by
  unconditional record/file cleanup).

Timestamps are integers in hours; the gateway and filesystem are modelled by
explicit outcome parameters.  All definitions are executable.
-/

namespace SignalBot

/-- One row of the `pins` table: `(pin_time, expire_time, downloaded)`. -/
structure PinData where
  pin_time : Int
  expire_time : Int
  downloaded : Bool
deriving DecidableEq

/-- The `pins` table, keyed by CID. -/
abbrev Store := List (String × PinData)

/-- `SELECT * FROM pins WHERE cid = ?` (first matching row). -/
def lookupPin : Store → String → Option PinData
  | [], _ => none
  | (c, r) :: rest, cid => if c = cid then some r else lookupPin rest cid

/-- `DELETE FROM pins WHERE cid = ?`. -/
def removePin : Store → String → Store
  | [], _ => []
  | (c, r) :: rest, cid =>
    if c = cid then removePin rest cid else (c, r) :: removePin rest cid

/-- `add_pin_record` (bot.py): `INSERT OR REPLACE INTO pins VALUES
(cid, now, now + PIN_DURATION, FALSE)`. -/
def add_pin_record (st : Store) (cid : String) (now dur : Int) : Store :=
  removePin st cid ++ [(cid, ⟨now, now + dur, false⟩)]

/-- The database write of `pin_local_file` (manage.py): a plain
`INSERT INTO pins VALUES (cid, now, now + dur, TRUE)`, which raises
`IntegrityError` when a row for `cid` already exists; the surrounding
`except` turns that into a `False` return with the store untouched. -/
def pin_local_file_db (st : Store) (cid : String) (now dur : Int) : Bool × Store :=
  if (lookupPin st cid).isSome then (false, st)
  else (true, st ++ [(cid, ⟨now, now + dur, true⟩)])

/-- `SELECT cid FROM pins WHERE expire_time < now`. -/
def list_expired : Store → Int → List String
  | [], _ => []
  | (c, r) :: rest, now =>
    if r.expire_time < now then c :: list_expired rest now else list_expired rest now

/-- `UPDATE pins SET expire_time = e WHERE cid = ?`. -/
def setExpire : Store → String → Int → Store
  | [], _, _ => []
  | (c, r) :: rest, cid, e =>
    (c, if c = cid then { r with expire_time := e } else r) :: setExpire rest cid e

/-- `extend_pin` (manage.py): read the current `expire_time`; when the CID is
absent log an error and return `False` leaving the store unchanged; otherwise
write back `expire_time + hours` and return `True`.  `hours` comes from the
CLI as an arbitrary machine integer. -/
def extend_pin (st : Store) (cid : String) (hours : Int) : Bool × Store :=
  match lookupPin st cid with
  | none => (false, st)
  | some r => (true, setExpire st cid (r.expire_time + hours))

/-- Primary-key uniqueness of the `pins` table. -/
def keysNodup (st : Store) : Prop := (st.map Prod.fst).Nodup

/-- Removal of the file named `cid` from the download directory
(`os.remove` guarded by `os.path.exists`). -/
def removeFile : List String → String → List String
  | [], _ => []
  | f :: rest, cid => if f = cid then removeFile rest cid else f :: removeFile rest cid

/-- The bot's durable state: the pin table and the download directory
(a list of file names). -/
structure SysState where
  store : Store
  files : List String
deriving DecidableEq

/-- Outcome of one `POST /api/v0/pin/rm` call made by the sweep: HTTP 200,
a non-200 status (no exception raised), or a raised exception (transport
error). -/
inductive UnpinBehavior
  | ok
  | failStatus
  | raises
deriving DecidableEq

/-- The body of the per-CID loop of `cleanup_expired_pins` (bot.py).  The
gateway unpin, the `DELETE FROM pins` and the file removal all sit in one
`try` block whose `except` logs and moves to the next CID, so a raised
exception during the unpin call skips both the record delete and the file
delete for that CID; a non-200 unpin response raises nothing and the
cleanup proceeds. -/
def sweepCid (gw : String → UnpinBehavior) (s : SysState) (cid : String) : SysState :=
  match gw cid with
  | UnpinBehavior.raises => s
  | UnpinBehavior.ok => ⟨removePin s.store cid, removeFile s.files cid⟩
  | UnpinBehavior.failStatus => ⟨removePin s.store cid, removeFile s.files cid⟩

/-- `cleanup_expired_pins` (bot.py): fetch the expired CIDs once, then run
the per-CID cleanup on each. -/
def cleanup_expired_pins (gw : String → UnpinBehavior) (now : Int) (s : SysState) : SysState :=
  (list_expired s.store now).foldl (sweepCid gw) s

/-- File name chosen by `download_ipfs_content` (bot.py line 145):
`links[0]["Name"] if links else cid`. -/
def download_file_name (links : List String) (cid : String) : String :=
  match links with
  | [] => cid
  | n :: _ => n

/-- The character class `[1-9A-HJ-NP-Za-km-z]` of both CID patterns. -/
def isB58 (c : Char) : Bool :=
  ('1' ≤ c && c ≤ '9')
  || ('A' ≤ c && c ≤ 'H')
  || ('J' ≤ c && c ≤ 'N')
  || ('P' ≤ c && c ≤ 'Z')
  || ('a' ≤ c && c ≤ 'k')
  || ('m' ≤ c && c ≤ 'z')

/-- Fixed prefix of the CIDv0 pattern `Qm[1-9A-HJ-NP-Za-km-z]{44}`. -/
def qmPre : List Char := ['Q', 'm']

/-- Fixed prefix of the CIDv1 pattern `bafy[1-9A-HJ-NP-Za-km-z]{44}`. -/
def bafyPre : List Char := ['b', 'a', 'f', 'y']

/-- Whether the pattern with prefix `pre` followed by exactly 44 class
characters matches at the start of `t`; on success, the matched text. -/
def matchHere (pre t : List Char) : Option (List Char) :=
  if pre.isPrefixOf t
      && ((t.drop pre.length).take 44).length == 44
      && ((t.drop pre.length).take 44).all isB58
  then some (pre ++ (t.drop pre.length).take 44)
  else none

/-- `re.search` semantics for one pattern: the match at the leftmost
position where the pattern matches, scanning left to right. -/
def searchPat (pre : List Char) : List Char → Option (List Char)
  | [] => matchHere pre []
  | c :: rest =>
    match matchHere pre (c :: rest) with
    | some m => some m
    | none => searchPat pre rest

/-- Whether the pattern matches at position `i` of `t`. -/
def patMatchAt (pre t : List Char) (i : Nat) : Option (List Char) :=
  matchHere pre (t.drop i)

/-- `is_valid_cid` (bot.py): try the CIDv0 pattern first, then the CIDv1
pattern, returning the first pattern's leftmost match; `None` when neither
matches.  A total function: it cannot throw on any input. -/
def is_valid_cid (text : String) : Option String :=
  match searchPat qmPre text.toList with
  | some m => some (String.mk m)
  | none =>
    match searchPat bafyPre text.toList with
    | some m => some (String.mk m)
    | none => none

/-- An inbound message envelope, normalised: `dataMessage.message` is the
empty string when the field is missing or null. -/
structure Envelope where
  source : String
  timestamp : String
  content : String
deriving DecidableEq

/-- Observable actions of `process_message`, in issue order. -/
inductive Event
  | upsertRec (cid : String)
  | pinCall (cid : String)
  | notify (recipient : String) (ok : Bool)
  | downloadTask (cid : String)
deriving DecidableEq

/-- In-memory bot state: the dedup set `processed_messages` and the pin
table. -/
structure BotState where
  processed : List String
  store : Store
deriving DecidableEq

/-- `msg_id = f"{source}-{timestamp}"`. -/
def msgId (e : Envelope) : String := e.source ++ "-" ++ e.timestamp

/-- `process_message` (bot.py): empty content returns at once (before the
dedup set is touched); a seen `msg_id` returns at once; otherwise the
identity is recorded, the extractor runs, and on a hit the pin record is
written before the gateway pin call, whose boolean outcome (`pin_ipfs_content`
catches its own exceptions and returns `False`) picks the notification
branch.  The returned event list is the issue-ordered trace of external
actions. -/
def process_message (pinOk : String → Bool) (now dur : Int) (st : BotState)
    (env : Envelope) : BotState × List Event :=
  if env.content = "" then (st, [])
  else if msgId env ∈ st.processed then (st, [])
  else
    let st1 : BotState := { st with processed := msgId env :: st.processed }
    match is_valid_cid env.content with
    | none => (st1, [])
    | some cid =>
      let st2 : BotState := { st1 with store := add_pin_record st1.store cid now dur }
      if pinOk cid then
        (st2, [Event.upsertRec cid, Event.pinCall cid,
               Event.notify env.source true, Event.downloadTask cid])
      else
        (st2, [Event.upsertRec cid, Event.pinCall cid,
               Event.notify env.source false])

/-- Number of gateway pin attempts in a trace. -/
def countPinCalls (tr : List Event) : Nat :=
  (tr.filter (fun e => match e with | Event.pinCall _ => true | _ => false)).length

/-- Number of notifications sent in a trace. -/
def countNotifies (tr : List Event) : Nat :=
  (tr.filter (fun e => match e with | Event.notify _ _ => true | _ => false)).length

/-- Whether `needle` occurs at the start of the second list. -/
def prefixMatches : List Char → List Char → Bool
  | [], _ => true
  | _ :: _, [] => false
  | a :: as, b :: bs => a == b && prefixMatches as bs

/-- Python's substring test `needle in hay`. -/
def containsSub (needle : List Char) : List Char → Bool
  | [] => needle.isEmpty
  | b :: bs => prefixMatches needle (b :: bs) || containsSub needle bs

/-- Outcome of the `POST /api/v0/pin/rm` call made by the operator tool:
HTTP 200, a non-200 status carrying the gateway's `Message` field, or a
raised `RequestException` (transport error). -/
inductive GwUnpin
  | ok
  | rejected (msg : String)
  | transportError

/-- The phrase tested for in the lowercased rejection message. -/
def notPinnedChars : List Char := ['n', 'o', 't', ' ', 'p', 'i', 'n', 'n', 'e', 'd']

/-- `unpin_file` (manage.py): the gateway unpin is attempted inside its own
`try`; HTTP 200 keeps `success = True`, a rejection keeps it only when the
lowercased message contains "not pinned", and a transport error sets
`success = False`.  The record delete and the local-file delete then run
regardless of the gateway outcome, and `success` is returned. -/
def unpin_file (gw : GwUnpin) (s : SysState) (cid : String) : Bool × SysState :=
  let success :=
    match gw with
    | GwUnpin.ok => true
    | GwUnpin.rejected msg => containsSub notPinnedChars (msg.toList.map Char.toLower)
    | GwUnpin.transportError => false
  (success, ⟨removePin s.store cid, removeFile s.files cid⟩)

/-! Helper lemmas about the store operations. -/

theorem lookupPin_removePin (st : Store) (x c : String) :
    lookupPin (removePin st x) c = if c = x then none else lookupPin st c := by
  induction st with
  | nil => simp [removePin, lookupPin]
  | cons p rest ih =>
    obtain ⟨a, r⟩ := p
    by_cases hax : a = x <;> by_cases hac : a = c <;>
      simp_all [removePin, lookupPin]

theorem mem_removePin (st : Store) (x : String) (p : String × PinData) :
    p ∈ removePin st x ↔ p ∈ st ∧ p.1 ≠ x := by
  induction st with
  | nil => simp [removePin]
  | cons q rest ih =>
    obtain ⟨a, r⟩ := q
    by_cases hax : a = x <;> simp [removePin, hax, ih] <;> aesop

theorem mem_removeFile (fs : List String) (x f : String) :
    f ∈ removeFile fs x ↔ f ∈ fs ∧ f ≠ x := by
  induction fs with
  | nil => simp [removeFile]
  | cons g rest ih =>
    by_cases hgx : g = x <;> simp [removeFile, hgx, ih] <;> aesop

theorem mem_list_expired (st : Store) (now : Int) (c : String) :
    c ∈ list_expired st now ↔ ∃ r, (c, r) ∈ st ∧ r.expire_time < now := by
  induction st with
  | nil => simp [list_expired]
  | cons p rest ih =>
    obtain ⟨a, r⟩ := p
    by_cases h : r.expire_time < now
    · simp only [list_expired, if_pos h, List.mem_cons, ih]
      constructor
      · rintro (rfl | ⟨r', h1, h2⟩)
        · exact ⟨r, Or.inl rfl, h⟩
        · exact ⟨r', Or.inr h1, h2⟩
      · rintro ⟨r', h1, h2⟩
        rcases h1 with heq | hm
        · exact Or.inl (congrArg Prod.fst heq)
        · exact Or.inr ⟨r', hm, h2⟩
    · simp only [list_expired, if_neg h, ih, List.mem_cons]
      constructor
      · rintro ⟨r', h1, h2⟩
        exact ⟨r', Or.inr h1, h2⟩
      · rintro ⟨r', h1, h2⟩
        rcases h1 with heq | hm
        · have hr : r' = r := by
            have h3 := congrArg Prod.snd heq
            simpa using h3
          subst hr
          exact absurd h2 h
        · exact ⟨r', hm, h2⟩

theorem lookupPin_eq_none_iff (st : Store) (c : String) :
    lookupPin st c = none ↔ ∀ r, (c, r) ∉ st := by
  induction st with
  | nil => simp [lookupPin]
  | cons p rest ih =>
    obtain ⟨a, r⟩ := p
    by_cases hac : a = c
    · subst hac
      simp only [lookupPin, if_pos rfl]
      constructor
      · intro h
        simp at h
      · intro h
        exact ((h r) (List.mem_cons_self _ _)).elim
    · simp only [lookupPin, if_neg hac, ih, List.mem_cons]
      constructor
      · intro h r' hmem
        rcases hmem with heq | hmem
        · obtain ⟨h1, _⟩ := Prod.mk.injEq .. ▸ heq
          exact hac h1.symm
        · exact h r' hmem
      · intro h r' hmem
        exact h r' (Or.inr hmem)

theorem lookupPin_append_none (l1 l2 : Store) (c : String)
    (h : lookupPin l1 c = none) :
    lookupPin (l1 ++ l2) c = lookupPin l2 c := by
  induction l1 with
  | nil => simp
  | cons p rest ih =>
    obtain ⟨a, r⟩ := p
    by_cases hac : a = c
    · simp [lookupPin, hac] at h
    · simp only [lookupPin, if_neg hac] at h
      simpa [lookupPin, hac] using ih h

theorem lookupPin_append_some (l1 l2 : Store) (c : String) (r : PinData)
    (h : lookupPin l1 c = some r) :
    lookupPin (l1 ++ l2) c = some r := by
  induction l1 with
  | nil => simp [lookupPin] at h
  | cons p rest ih =>
    obtain ⟨a, q⟩ := p
    by_cases hac : a = c
    · simp only [lookupPin, if_pos hac] at h
      simp [lookupPin, hac, h]
    · simp only [lookupPin, if_neg hac] at h
      simpa [lookupPin, hac] using ih h

theorem lookupPin_add_self (st : Store) (cid : String) (now dur : Int) :
    lookupPin (add_pin_record st cid now dur) cid = some ⟨now, now + dur, false⟩ := by
  unfold add_pin_record
  rw [lookupPin_append_none _ _ _ (by rw [lookupPin_removePin]; simp)]
  simp [lookupPin]

theorem lookupPin_add_other (st : Store) (cid c : String) (now dur : Int)
    (h : c ≠ cid) :
    lookupPin (add_pin_record st cid now dur) c = lookupPin st c := by
  unfold add_pin_record
  cases hl : lookupPin (removePin st cid) c with
  | none =>
    rw [lookupPin_append_none _ _ _ hl]
    rw [lookupPin_removePin, if_neg h] at hl
    have hcc : ¬ cid = c := fun hh => h hh.symm
    simp [lookupPin, hcc, hl]
  | some r =>
    rw [lookupPin_append_some _ _ _ _ hl]
    rw [lookupPin_removePin, if_neg h] at hl
    exact hl.symm

theorem lookupPin_setExpire_self (st : Store) (cid : String) (e : Int) (r : PinData)
    (h : lookupPin st cid = some r) :
    lookupPin (setExpire st cid e) cid = some ⟨r.pin_time, e, r.downloaded⟩ := by
  induction st with
  | nil => simp [lookupPin] at h
  | cons p rest ih =>
    obtain ⟨a, q⟩ := p
    by_cases hac : a = cid
    · subst hac
      have hq : q = r := by simpa [lookupPin] using h
      subst hq
      simp [setExpire, lookupPin]
    · simp only [lookupPin, if_neg hac] at h
      simp [setExpire, lookupPin, hac, ih h]

theorem lookupPin_setExpire_other (st : Store) (cid : String) (e : Int) (c : String)
    (h : c ≠ cid) :
    lookupPin (setExpire st cid e) c = lookupPin st c := by
  induction st with
  | nil => simp [setExpire]
  | cons p rest ih =>
    obtain ⟨a, q⟩ := p
    by_cases hac : a = c
    · subst hac
      simp [setExpire, lookupPin, h]
    · simp [setExpire, lookupPin, hac, ih]

/-! Lemmas about the expiry sweep. -/

theorem sweepCid_store_sub (gw : String → UnpinBehavior) (s : SysState) (x : String)
    (p : String × PinData) (h : p ∈ (sweepCid gw s x).store) : p ∈ s.store := by
  unfold sweepCid at h
  cases hgw : gw x <;> rw [hgw] at h
  · exact ((mem_removePin _ _ _).mp h).1
  · exact ((mem_removePin _ _ _).mp h).1
  · exact h

theorem foldl_sweep_store_sub (gw : String → UnpinBehavior) (L : List String)
    (s : SysState) (p : String × PinData)
    (h : p ∈ (L.foldl (sweepCid gw) s).store) : p ∈ s.store := by
  induction L generalizing s with
  | nil => exact h
  | cons x L ih =>
    simp only [List.foldl_cons] at h
    exact sweepCid_store_sub gw s x p (ih _ h)

theorem sweep_preserves_absent (gw : String → UnpinBehavior) (L : List String)
    (s : SysState) (c : String)
    (hs : lookupPin s.store c = none) (hf : c ∉ s.files) :
    lookupPin (L.foldl (sweepCid gw) s).store c = none
    ∧ c ∉ (L.foldl (sweepCid gw) s).files := by
  induction L generalizing s with
  | nil => exact ⟨hs, hf⟩
  | cons x L ih =>
    simp only [List.foldl_cons]
    have h1 : lookupPin (sweepCid gw s x).store c = none := by
      unfold sweepCid
      cases gw x <;> simp [lookupPin_removePin, hs]
    have h2 : c ∉ (sweepCid gw s x).files := by
      unfold sweepCid
      cases gw x <;> simp [mem_removeFile, hf]
    exact ih (sweepCid gw s x) h1 h2

theorem sweep_removes (gw : String → UnpinBehavior) (L : List String)
    (s : SysState) (c : String)
    (hmem : c ∈ L) (hgw : gw c ≠ UnpinBehavior.raises) :
    lookupPin (L.foldl (sweepCid gw) s).store c = none
    ∧ c ∉ (L.foldl (sweepCid gw) s).files := by
  induction L generalizing s with
  | nil => exact absurd hmem (List.not_mem_nil c)
  | cons x L ih =>
    simp only [List.foldl_cons]
    rcases List.mem_cons.mp hmem with rfl | hm
    · have h1 : lookupPin (sweepCid gw s c).store c = none := by
        unfold sweepCid
        cases hb : gw c
        · simp [lookupPin_removePin]
        · simp [lookupPin_removePin]
        · exact absurd hb hgw
      have h2 : c ∉ (sweepCid gw s c).files := by
        unfold sweepCid
        cases hb : gw c
        · simp [mem_removeFile]
        · simp [mem_removeFile]
        · exact absurd hb hgw
      exact sweep_preserves_absent gw L _ c h1 h2
    · exact ih (sweepCid gw s x) hm

theorem foldl_sweep_id (gw : String → UnpinBehavior) (L : List String) (s : SysState)
    (h : ∀ c ∈ L, gw c = UnpinBehavior.raises) :
    L.foldl (sweepCid gw) s = s := by
  induction L generalizing s with
  | nil => rfl
  | cons x L ih =>
    simp only [List.foldl_cons]
    have hx : sweepCid gw s x = s := by
      unfold sweepCid
      rw [h x (List.mem_cons_self _ _)]
    rw [hx]
    exact ih s (fun c hc => h c (List.mem_cons_of_mem _ hc))

theorem sweep_idem (gw : String → UnpinBehavior) (now : Int) (s : SysState) :
    cleanup_expired_pins gw now (cleanup_expired_pins gw now s)
      = cleanup_expired_pins gw now s := by
  unfold cleanup_expired_pins
  apply foldl_sweep_id
  intro c hc
  by_contra hne
  obtain ⟨r, hmem, hlt⟩ := (mem_list_expired _ _ _).mp hc
  have hmem0 : (c, r) ∈ s.store := foldl_sweep_store_sub gw _ s _ hmem
  have hc0 : c ∈ list_expired s.store now := (mem_list_expired _ _ _).mpr ⟨r, hmem0, hlt⟩
  have habs := sweep_removes gw (list_expired s.store now) s c hc0 hne
  exact (lookupPin_eq_none_iff _ _).mp habs.1 r hmem

/-! Concrete CIDs and scenarios used by counterexamples and witnesses. -/

/-- A run of 44 identical base-58 characters. -/
def b58Run (ch : Char) : String := String.mk (List.replicate 44 ch)

/-- A CIDv0-shaped address: `Qm` followed by 44 base-58 characters. -/
def cidQ : String := "Qm" ++ b58Run '1'

/-- A CIDv1-shaped address: `bafy` followed by 44 base-58 characters. -/
def cidB : String := "bafy" ++ b58Run '2'

/-- Gateway for the C1 counterexample: unpinning `cidQ` raises a transport
error, every other unpin succeeds. -/
def c1Gw : String → UnpinBehavior :=
  fun c => if c = cidQ then UnpinBehavior.raises else UnpinBehavior.ok

/-- State for the C1 counterexample: both CIDs are long expired; the content
of `cidB` was downloaded under its gateway-provided link name `photo.jpg`. -/
def c1State : SysState :=
  ⟨[(cidQ, ⟨0, 10, false⟩), (cidB, ⟨0, 10, true⟩)],
   [download_file_name ["photo.jpg"] cidB]⟩

/-- C1 is false as stated: in `cleanup_expired_pins` the record delete and
the file delete sit in the same `try` block after the gateway unpin, so an
unpin that raises (here for `cidQ`) skips the removal of that CID's
PinRecord, which therefore is still present after the sweep; moreover the
sweep only deletes the file named exactly by the CID, so the local file of
`cidB` — saved by `download_ipfs_content` under the link name `photo.jpg` —
still exists even though `cidB` itself was cleaned up. -/
theorem c1_sweep_counterexample :
    cidQ ∈ list_expired c1State.store 100
    ∧ cidB ∈ list_expired c1State.store 100
    ∧ lookupPin (cleanup_expired_pins c1Gw 100 c1State).store cidQ = some ⟨0, 10, false⟩
    ∧ lookupPin (cleanup_expired_pins c1Gw 100 c1State).store cidB = none
    ∧ download_file_name ["photo.jpg"] cidB ∈ (cleanup_expired_pins c1Gw 100 c1State).files := by
  decide

/-- C1 (amended): for every CID returned by `list_expired` whose gateway
unpin completes without raising (HTTP 200 or any non-200 status, the
logged-and-continue cases), the sweep unconditionally removes that CID's
PinRecord and the local file named by the CID, regardless of the unpin
outcome on any other CID (per-CID independence); afterwards the CID is
absent from the store snapshot and an immediately repeated sweep is a
no-op.  A CID whose unpin raises is skipped whole — its record and file
survive until a later sweep — and files stored under a link name other than
the CID are never removed. -/
theorem c1_sweep_amended (gw : String → UnpinBehavior) (now : Int) (s : SysState)
    (cid : String) (hmem : cid ∈ list_expired s.store now)
    (hgw : gw cid ≠ UnpinBehavior.raises) :
    lookupPin (cleanup_expired_pins gw now s).store cid = none
    ∧ cid ∉ (cleanup_expired_pins gw now s).files
    ∧ cleanup_expired_pins gw now (cleanup_expired_pins gw now s)
        = cleanup_expired_pins gw now s := by
  have h := sweep_removes gw (list_expired s.store now) s cid hmem hgw
  exact ⟨h.1, h.2, sweep_idem gw now s⟩

/-- Gateway for the C1 witness: every unpin succeeds. -/
def c1wGw : String → UnpinBehavior := fun _ => UnpinBehavior.ok

/-- State for the C1 witness: one expired record with its downloaded file. -/
def c1wState : SysState := ⟨[(cidQ, ⟨0, 10, false⟩)], [cidQ]⟩

/-- Witness for the amended C1 theorem at a concrete expired record. -/
theorem c1_sweep_amended_witness :
    lookupPin (cleanup_expired_pins c1wGw 100 c1wState).store cidQ = none
    ∧ cidQ ∉ (cleanup_expired_pins c1wGw 100 c1wState).files
    ∧ cleanup_expired_pins c1wGw 100 (cleanup_expired_pins c1wGw 100 c1wState)
        = cleanup_expired_pins c1wGw 100 c1wState :=
  c1_sweep_amended c1wGw 100 c1wState cidQ (by decide) (by decide)

/-! Lemmas about the message handler. -/

theorem is_valid_cid_empty : is_valid_cid "" = none := by decide

theorem content_ne_empty_of_cid (env : Envelope) (c : String)
    (hcid : is_valid_cid env.content = some c) : env.content ≠ "" := by
  intro h
  rw [h, is_valid_cid_empty] at hcid
  exact Option.noConfusion hcid

theorem mem_processed_after (pinOk : String → Bool) (now dur : Int) (st : BotState)
    (env : Envelope) (hc : env.content ≠ "") :
    msgId env ∈ (process_message pinOk now dur st env).1.processed := by
  unfold process_message
  rw [if_neg hc]
  by_cases hdup : msgId env ∈ st.processed
  · rw [if_pos hdup]
    exact hdup
  · rw [if_neg hdup]
    cases hcid : is_valid_cid env.content with
    | none => simp
    | some cid => by_cases hp : pinOk cid <;> simp [hp]

theorem process_message_seen (pinOk : String → Bool) (now dur : Int) (st : BotState)
    (env : Envelope) (h : env.content = "" ∨ msgId env ∈ st.processed) :
    process_message pinOk now dur st env = (st, []) := by
  unfold process_message
  rcases h with h | h
  · rw [if_pos h]
  · by_cases hc : env.content = ""
    · rw [if_pos hc]
    · rw [if_neg hc, if_pos h]

theorem process_message_fresh_trace (pinOk : String → Bool) (now dur : Int)
    (st : BotState) (env : Envelope) (c : String)
    (hdup : msgId env ∉ st.processed) (hcid : is_valid_cid env.content = some c) :
    (process_message pinOk now dur st env).2
      = if pinOk c then
          [Event.upsertRec c, Event.pinCall c,
           Event.notify env.source true, Event.downloadTask c]
        else
          [Event.upsertRec c, Event.pinCall c, Event.notify env.source false] := by
  unfold process_message
  rw [if_neg (content_ne_empty_of_cid env c hcid), if_neg hdup, hcid]
  by_cases hp : pinOk c <;> simp [hp]

theorem process_message_fresh_state (pinOk : String → Bool) (now dur : Int)
    (st : BotState) (env : Envelope) (c : String)
    (hdup : msgId env ∉ st.processed) (hcid : is_valid_cid env.content = some c) :
    (process_message pinOk now dur st env).1
      = ⟨msgId env :: st.processed, add_pin_record st.store c now dur⟩ := by
  unfold process_message
  rw [if_neg (content_ne_empty_of_cid env c hcid), if_neg hdup, hcid]
  by_cases hp : pinOk c <;> simp [hp]

/-- C2: for every processed message carrying a valid CID, `process_message`
issues the pin-store upsert strictly before the gateway pin call (the first
two actions of its trace are the upsert and then the pin attempt), and —
whatever the pin outcome, success, failure or a raised error (the gateway
client catches its own exceptions into a failure result) — the just-written
PinRecord `(pin_time = now, expire_time = now + dur, downloaded = false)` is
still in the store afterwards: it is never rolled back. -/
theorem c2_upsert_before_pin (pinOk : String → Bool) (now dur : Int)
    (st : BotState) (env : Envelope) (c : String)
    (hdup : msgId env ∉ st.processed) (hcid : is_valid_cid env.content = some c) :
    (process_message pinOk now dur st env).2.take 2
        = [Event.upsertRec c, Event.pinCall c]
    ∧ lookupPin (process_message pinOk now dur st env).1.store c
        = some ⟨now, now + dur, false⟩ := by
  constructor
  · rw [process_message_fresh_trace pinOk now dur st env c hdup hcid]
    by_cases hp : pinOk c <;> simp [hp]
  · rw [process_message_fresh_state pinOk now dur st env c hdup hcid]
    exact lookupPin_add_self st.store c now dur

/-- Envelope used by the C2 and C4 witnesses: a fresh message whose body
embeds a CIDv0-shaped address. -/
def cidEnv : Envelope := ⟨"+1555", "1000", "here: " ++ cidQ⟩

/-- Witness for C2 at a concrete message whose gateway pin fails. -/
theorem c2_upsert_before_pin_witness :
    (process_message (fun _ => false) 0 72 ⟨[], []⟩ cidEnv).2.take 2
        = [Event.upsertRec cidQ, Event.pinCall cidQ]
    ∧ lookupPin (process_message (fun _ => false) 0 72 ⟨[], []⟩ cidEnv).1.store cidQ
        = some ⟨0, 0 + 72, false⟩ :=
  c2_upsert_before_pin (fun _ => false) 0 72 ⟨[], []⟩ cidEnv cidQ
    (by decide) (by decide)

/-- C3 is false as stated: an envelope whose body is empty or absent is
dropped by the early `if not content: return`, which runs before the dedup
filter is touched, so its identity is never recorded; here the dedup set is
empty before and still empty after handling the message. -/
theorem c3_dedup_counterexample :
    msgId ⟨"+1555", "1000", ""⟩
      ∉ (process_message (fun _ => true) 0 72 ⟨[], []⟩
          ⟨"+1555", "1000", ""⟩).1.processed := by
  decide

/-- C3 (amended): the message identity is recorded unconditionally for every
envelope with a nonempty body — in particular when the body yields no CID —
so re-delivery of such messages is suppressed; an envelope with an empty or
absent body returns before the dedup filter is touched, its identity never
recorded, which is still harmless on re-delivery because handling such a
message has no effect at all. -/
theorem c3_dedup_amended (pinOk : String → Bool) (now dur : Int) (st : BotState)
    (env : Envelope) :
    (env.content ≠ "" → msgId env ∈ (process_message pinOk now dur st env).1.processed)
    ∧ (env.content = "" → process_message pinOk now dur st env = (st, [])) :=
  ⟨fun hc => mem_processed_after pinOk now dur st env hc,
   fun hc => process_message_seen pinOk now dur st env (Or.inl hc)⟩

/-- Envelope used by the C3 witness: a nonempty body with no CID in it. -/
def c3wEnv : Envelope := ⟨"+1555", "1000", "no address here"⟩

/-- Witness for the amended C3 theorem: a CID-free nonempty message still
records its identity in the dedup filter. -/
theorem c3_dedup_amended_witness :
    msgId c3wEnv ∈ (process_message (fun _ => true) 0 72 ⟨[], []⟩ c3wEnv).1.processed :=
  (c3_dedup_amended (fun _ => true) 0 72 ⟨[], []⟩ c3wEnv).1 (by decide)

/-- C4: re-delivering the same `(source, timestamp)` envelope a second time
is an idempotent no-op: the second delivery returns the state unchanged and
performs no external action; and for an envelope that is fresh and carries a
valid CID, the two deliveries together make exactly one gateway pin attempt
and send at most one notification.  (An envelope with no CID triggers no pin
attempt on either delivery; the no-op part holds for every envelope.) -/
theorem c4_redelivery_idempotent (pinOk : String → Bool) (now dur : Int)
    (st : BotState) (env : Envelope) :
    process_message pinOk now dur (process_message pinOk now dur st env).1 env
        = ((process_message pinOk now dur st env).1, [])
    ∧ (∀ c, msgId env ∉ st.processed → is_valid_cid env.content = some c →
        countPinCalls ((process_message pinOk now dur st env).2
          ++ (process_message pinOk now dur (process_message pinOk now dur st env).1 env).2) = 1
        ∧ countNotifies ((process_message pinOk now dur st env).2
          ++ (process_message pinOk now dur (process_message pinOk now dur st env).1 env).2) ≤ 1) := by
  have hsecond : process_message pinOk now dur (process_message pinOk now dur st env).1 env
      = ((process_message pinOk now dur st env).1, []) := by
    by_cases hc : env.content = ""
    · exact process_message_seen pinOk now dur _ env (Or.inl hc)
    · exact process_message_seen pinOk now dur _ env
        (Or.inr (mem_processed_after pinOk now dur st env hc))
  refine ⟨hsecond, fun c hdup hcid => ?_⟩
  rw [hsecond, process_message_fresh_trace pinOk now dur st env c hdup hcid]
  by_cases hp : pinOk c <;> simp [hp, countPinCalls, countNotifies]

/-- Witness for C4 at a concrete fresh CID-bearing message. -/
theorem c4_redelivery_idempotent_witness :
    process_message (fun _ => true) 0 72
        (process_message (fun _ => true) 0 72 ⟨[], []⟩ cidEnv).1 cidEnv
      = ((process_message (fun _ => true) 0 72 ⟨[], []⟩ cidEnv).1, [])
    ∧ countPinCalls ((process_message (fun _ => true) 0 72 ⟨[], []⟩ cidEnv).2
        ++ (process_message (fun _ => true) 0 72
            (process_message (fun _ => true) 0 72 ⟨[], []⟩ cidEnv).1 cidEnv).2) = 1
    ∧ countNotifies ((process_message (fun _ => true) 0 72 ⟨[], []⟩ cidEnv).2
        ++ (process_message (fun _ => true) 0 72
            (process_message (fun _ => true) 0 72 ⟨[], []⟩ cidEnv).1 cidEnv).2) ≤ 1 :=
  have h := c4_redelivery_idempotent (fun _ => true) 0 72 ⟨[], []⟩ cidEnv
  ⟨h.1, (h.2 cidQ (by decide) (by decide)).1, (h.2 cidQ (by decide) (by decide)).2⟩

/-! The extend operation (C5). -/

/-- Store used by the C5 counterexample and witness. -/
def c5Store : Store := [(cidQ, ⟨0, 100, false⟩)]

/-- C5 is false as stated: `hours` reaches `extend_pin` from the CLI as a
plain machine integer with no sign check, so a negative extension decreases
`expire_time` — here extending by `-1` hour moves `expire_time` from `100`
back to `99` while reporting success. -/
theorem c5_extend_counterexample :
    (extend_pin c5Store cidQ (-1)).1 = true
    ∧ lookupPin (extend_pin c5Store cidQ (-1)).2 cidQ = some ⟨0, 99, false⟩ := by
  decide

/-- C5 (amended): for every CID present in the store, `extend(cid, h)`
changes that record's `expire_time` by exactly `h` hours — which is an
increase, hence never a decrease, whenever `h ≥ 0`; the CLI also accepts a
negative `h`, which decreases it — leaving the record's other fields and
every other record unchanged, and returns success.  For every CID absent
from the store, `extend` fails (`NotFound`, surfaced as a failure return)
and leaves the entire store unchanged. -/
theorem c5_extend_amended (st : Store) (cid : String) (hours : Int) :
    (∀ r, lookupPin st cid = some r →
      (extend_pin st cid hours).1 = true
      ∧ lookupPin (extend_pin st cid hours).2 cid
          = some ⟨r.pin_time, r.expire_time + hours, r.downloaded⟩
      ∧ (0 ≤ hours → r.expire_time ≤ r.expire_time + hours)
      ∧ ∀ c, c ≠ cid → lookupPin (extend_pin st cid hours).2 c = lookupPin st c)
    ∧ (lookupPin st cid = none → extend_pin st cid hours = (false, st)) := by
  constructor
  · intro r hr
    have he : extend_pin st cid hours = (true, setExpire st cid (r.expire_time + hours)) := by
      simp [extend_pin, hr]
    refine ⟨by rw [he], ?_, fun h0 => by omega, fun c hc => ?_⟩
    · rw [he]
      exact lookupPin_setExpire_self st cid _ r hr
    · rw [he]
      exact lookupPin_setExpire_other st cid _ c hc
  · intro hn
    simp [extend_pin, hn]

/-- Witness for the amended C5 theorem: extending a present record by 24
hours moves `expire_time` from 100 to 124 and reports success; extending an
absent CID fails and leaves the store unchanged. -/
theorem c5_extend_amended_witness :
    (extend_pin c5Store cidQ 24).1 = true
    ∧ lookupPin (extend_pin c5Store cidQ 24).2 cidQ = some ⟨0, 100 + 24, false⟩
    ∧ extend_pin c5Store cidB 24 = (false, c5Store) :=
  have h1 := (c5_extend_amended c5Store cidQ 24).1 ⟨0, 100, false⟩ (by decide)
  have h2 := (c5_extend_amended c5Store cidB 24).2 (by decide)
  ⟨h1.1, h1.2.1, h2⟩

/-! The upsert operation (C6). -/

theorem removePin_sublist (st : Store) (x : String) : List.Sublist (removePin st x) st := by
  induction st with
  | nil => exact List.Sublist.refl _
  | cons p rest ih =>
    obtain ⟨a, r⟩ := p
    by_cases hax : a = x
    · simp only [removePin, if_pos hax]
      exact ih.cons _
    · simp only [removePin, if_neg hax]
      exact ih.cons₂ _

theorem keysNodup_add (st : Store) (cid : String) (now dur : Int)
    (h : keysNodup st) : keysNodup (add_pin_record st cid now dur) := by
  unfold keysNodup add_pin_record
  rw [List.map_append]
  refine List.Nodup.append ?_ (by simp) ?_
  · exact List.Nodup.sublist (List.Sublist.map Prod.fst (removePin_sublist st cid)) h
  · intro a ha hb
    simp only [List.map_cons, List.map_nil, List.mem_singleton] at hb
    obtain ⟨p, hp, hfst⟩ := List.mem_map.mp ha
    exact ((mem_removePin st cid p).mp hp).2 (hfst.trans hb)

/-- Store used by the C6 counterexample: `cidQ` already has a record. -/
def c6Store : Store := [(cidQ, ⟨0, 10, false⟩)]

/-- C6 is false as stated: the bot's message-path upsert does replace, but a
manual re-pin via the CLI (`pin_local_file`) issues a plain `INSERT`, which
on an already-present CID raises `IntegrityError`; the handler catches it
and returns failure, leaving the old record (pin_time 0, expire_time 10) in
place instead of replacing it with the new times. -/
theorem c6_upsert_counterexample :
    pin_local_file_db c6Store cidQ 50 72 = (false, c6Store) := by
  decide

/-- C6 (amended): the bot-path upsert (`INSERT OR REPLACE`) creates the
record when absent and fully replaces `pin_time`, `expire_time` and
`downloaded` when a record exists, without error and preserving primary-key
uniqueness, so at most one PinRecord per CID ever exists; the CLI manual
pin, however, only creates: on an absent CID it inserts a record marked
downloaded, and on a CID already present its plain `INSERT` fails (the
caught error becomes a failure return) and the store is left entirely
unchanged — a manual re-pin does not reset the TTL window. -/
theorem c6_upsert_amended (st : Store) (cid : String) (now dur : Int) :
    lookupPin (add_pin_record st cid now dur) cid = some ⟨now, now + dur, false⟩
    ∧ (∀ c, c ≠ cid → lookupPin (add_pin_record st cid now dur) c = lookupPin st c)
    ∧ (keysNodup st → keysNodup (add_pin_record st cid now dur))
    ∧ (lookupPin st cid = none →
        pin_local_file_db st cid now dur = (true, st ++ [(cid, ⟨now, now + dur, true⟩)]))
    ∧ (∀ r, lookupPin st cid = some r → pin_local_file_db st cid now dur = (false, st)) := by
  refine ⟨lookupPin_add_self st cid now dur,
          fun c hc => lookupPin_add_other st cid c now dur hc,
          keysNodup_add st cid now dur, ?_, ?_⟩
  · intro hn
    simp [pin_local_file_db, hn]
  · intro r hr
    simp [pin_local_file_db, hr]

/-- Witness for the amended C6 theorem on concrete stores. -/
theorem c6_upsert_amended_witness :
    lookupPin (add_pin_record c6Store cidQ 50 72) cidQ = some ⟨50, 50 + 72, false⟩
    ∧ pin_local_file_db [] cidB 50 72 = (true, [] ++ [(cidB, ⟨50, 50 + 72, true⟩)]) :=
  ⟨(c6_upsert_amended c6Store cidQ 50 72).1,
   (c6_upsert_amended [] cidB 50 72).2.2.2.1 (by decide)⟩

/-! The expiry listing (C7). -/

/-- C7: `list_expired now` returns exactly the CIDs of records whose
`expire_time` is strictly below `now` (strict comparison, straight from the
SQL `WHERE expire_time < ?`); a record freshly upserted at time `t` with
positive duration `dur` is excluded by `list_expired t` and included by
`list_expired (t + dur + 1)`, one tick past its expiry. -/
theorem c7_list_expired (st : Store) (now : Int) (cid : String) (t dur : Int)
    (hdur : 0 < dur) :
    (∀ c, c ∈ list_expired st now ↔ ∃ r, (c, r) ∈ st ∧ r.expire_time < now)
    ∧ cid ∉ list_expired (add_pin_record st cid t dur) t
    ∧ cid ∈ list_expired (add_pin_record st cid t dur) (t + dur + 1) := by
  refine ⟨fun c => mem_list_expired st now c, ?_, ?_⟩
  · intro hmem
    obtain ⟨r, hr, hlt⟩ := (mem_list_expired _ _ _).mp hmem
    unfold add_pin_record at hr
    rcases List.mem_append.mp hr with h1 | h1
    · exact ((mem_removePin _ _ _).mp h1).2 rfl
    · rw [List.mem_singleton] at h1
      have hrr : r = ⟨t, t + dur, false⟩ := by
        have h2 := congrArg Prod.snd h1
        simpa using h2
      subst hrr
      have hlt2 : t + dur < t := hlt
      omega
  · refine (mem_list_expired _ _ _).mpr ⟨⟨t, t + dur, false⟩, ?_, ?_⟩
    · unfold add_pin_record
      exact List.mem_append.mpr (Or.inr (by simp))
    · show t + dur < t + dur + 1
      omega

/-- Store used by the C7 witness. -/
def c7Store : Store := [(cidB, ⟨0, 10, true⟩)]

/-- Witness for C7 on a concrete store and a concrete fresh record. -/
theorem c7_list_expired_witness :
    (cidB ∈ list_expired c7Store 100 ↔ ∃ r, (cidB, r) ∈ c7Store ∧ r.expire_time < 100)
    ∧ cidQ ∉ list_expired (add_pin_record c7Store cidQ 50 72) 50
    ∧ cidQ ∈ list_expired (add_pin_record c7Store cidQ 50 72) (50 + 72 + 1) :=
  have h := c7_list_expired c7Store 100 cidQ 50 72 (by decide)
  ⟨h.1 cidB, h.2.1, h.2.2⟩

/-! The CID extractor (C8). -/

theorem searchPat_eq_none_iff (pre : List Char) (t : List Char) :
    searchPat pre t = none ↔ ∀ i, patMatchAt pre t i = none := by
  induction t with
  | nil =>
    simp only [searchPat, patMatchAt, List.drop_nil]
    exact ⟨fun h i => h, fun h => h 0⟩
  | cons c rest ih =>
    cases h : matchHere pre (c :: rest) with
    | some m =>
      simp only [searchPat, h]
      constructor
      · intro hc
        exact Option.noConfusion hc
      · intro hall
        have h0 := hall 0
        simp only [patMatchAt, List.drop_zero] at h0
        rw [h] at h0
        exact Option.noConfusion h0
    | none =>
      simp only [searchPat, h]
      rw [ih]
      constructor
      · intro hall i
        cases i with
        | zero => simpa [patMatchAt] using h
        | succ i => simpa [patMatchAt, List.drop_succ_cons] using hall i
      · intro hall i
        simpa [patMatchAt, List.drop_succ_cons] using hall (i + 1)

theorem searchPat_eq_some_iff (pre : List Char) (t : List Char) (m : List Char) :
    searchPat pre t = some m ↔
      ∃ i, patMatchAt pre t i = some m ∧ ∀ j, j < i → patMatchAt pre t j = none := by
  induction t with
  | nil =>
    simp only [searchPat, patMatchAt, List.drop_nil]
    constructor
    · intro h
      exact ⟨0, h, fun j hj => absurd hj (Nat.not_lt_zero j)⟩
    · rintro ⟨i, hi, _⟩
      exact hi
  | cons c rest ih =>
    cases h : matchHere pre (c :: rest) with
    | some m0 =>
      simp only [searchPat, h]
      constructor
      · intro hc
        refine ⟨0, ?_, fun j hj => absurd hj (Nat.not_lt_zero j)⟩
        simpa [patMatchAt] using h.trans hc
      · rintro ⟨i, hi, hmin⟩
        cases i with
        | zero =>
          simp only [patMatchAt, List.drop_zero] at hi
          rw [h] at hi
          exact hi
        | succ i =>
          have h0 := hmin 0 (Nat.succ_pos i)
          simp only [patMatchAt, List.drop_zero] at h0
          rw [h] at h0
          exact Option.noConfusion h0
    | none =>
      simp only [searchPat, h]
      rw [ih]
      constructor
      · rintro ⟨i, hi, hmin⟩
        refine ⟨i + 1, ?_, ?_⟩
        · simpa [patMatchAt, List.drop_succ_cons] using hi
        · intro j hj
          cases j with
          | zero => simpa [patMatchAt] using h
          | succ j =>
            simpa [patMatchAt, List.drop_succ_cons] using hmin j (Nat.lt_of_succ_lt_succ hj)
      · rintro ⟨i, hi, hmin⟩
        cases i with
        | zero =>
          simp only [patMatchAt, List.drop_zero] at hi
          rw [h] at hi
          exact Option.noConfusion hi
        | succ i =>
          refine ⟨i, ?_, ?_⟩
          · simpa [patMatchAt, List.drop_succ_cons] using hi
          · intro j hj
            simpa [patMatchAt, List.drop_succ_cons] using hmin (j + 1) (Nat.succ_lt_succ hj)

/-- C8: the extractor returns the first match of the first pattern in
pattern-list order — it returns some text exactly when that text is the
leftmost CIDv0-pattern match, or, only if the CIDv0 pattern matches nowhere
at all (pattern order, not position, breaks the tie), the leftmost
CIDv1-pattern match — and it returns nothing exactly when neither pattern
matches at any position, in particular on the empty string.  It is a total
function, so it can never throw, however malformed the input. -/
theorem c8_extractor_characterization (text : String) :
    (is_valid_cid text = none ↔
      (∀ i, patMatchAt qmPre text.toList i = none)
      ∧ (∀ i, patMatchAt bafyPre text.toList i = none))
    ∧ ∀ m : List Char,
        (is_valid_cid text = some (String.mk m) ↔
          (∃ i, patMatchAt qmPre text.toList i = some m
              ∧ ∀ j, j < i → patMatchAt qmPre text.toList j = none)
          ∨ ((∀ i, patMatchAt qmPre text.toList i = none)
              ∧ ∃ i, patMatchAt bafyPre text.toList i = some m
                  ∧ ∀ j, j < i → patMatchAt bafyPre text.toList j = none)) := by
  constructor
  · cases hq : searchPat qmPre text.toList with
    | some m0 =>
      simp only [is_valid_cid, hq]
      constructor
      · intro hc
        exact Option.noConfusion hc
      · rintro ⟨hqall, _⟩
        have h2 := (searchPat_eq_none_iff qmPre text.toList).mpr hqall
        rw [hq] at h2
        exact Option.noConfusion h2
    | none =>
      cases hb : searchPat bafyPre text.toList with
      | some m0 =>
        simp only [is_valid_cid, hq, hb]
        constructor
        · intro hc
          exact Option.noConfusion hc
        · rintro ⟨_, hball⟩
          have h2 := (searchPat_eq_none_iff bafyPre text.toList).mpr hball
          rw [hb] at h2
          exact Option.noConfusion h2
      | none =>
        simp only [is_valid_cid, hq, hb]
        exact iff_of_true trivial
          ⟨(searchPat_eq_none_iff qmPre text.toList).mp hq,
           (searchPat_eq_none_iff bafyPre text.toList).mp hb⟩
  · intro m
    cases hq : searchPat qmPre text.toList with
    | some m0 =>
      simp only [is_valid_cid, hq]
      constructor
      · intro hc
        have hmm : m0 = m := by
          have h2 : String.mk m0 = String.mk m := Option.some.inj hc
          injection h2
        exact Or.inl ((searchPat_eq_some_iff qmPre text.toList m).mp (hmm ▸ hq))
      · rintro (⟨i, hi, hmin⟩ | ⟨hqall, _⟩)
        · have h2 := (searchPat_eq_some_iff qmPre text.toList m).mpr ⟨i, hi, hmin⟩
          rw [hq] at h2
          rw [Option.some.inj h2]
        · have h2 := (searchPat_eq_none_iff qmPre text.toList).mpr hqall
          rw [hq] at h2
          exact Option.noConfusion h2
    | none =>
      have hqall := (searchPat_eq_none_iff qmPre text.toList).mp hq
      cases hb : searchPat bafyPre text.toList with
      | some m0 =>
        simp only [is_valid_cid, hq, hb]
        constructor
        · intro hc
          have hmm : m0 = m := by
            have h2 : String.mk m0 = String.mk m := Option.some.inj hc
            injection h2
          exact Or.inr ⟨hqall, (searchPat_eq_some_iff bafyPre text.toList m).mp (hmm ▸ hb)⟩
        · rintro (⟨i, hi, hmin⟩ | ⟨_, i, hi, hmin⟩)
          · have h2 := (searchPat_eq_some_iff qmPre text.toList m).mpr ⟨i, hi, hmin⟩
            rw [hq] at h2
            exact Option.noConfusion h2
          · have h2 := (searchPat_eq_some_iff bafyPre text.toList m).mpr ⟨i, hi, hmin⟩
            rw [hb] at h2
            rw [Option.some.inj h2]
      | none =>
        simp only [is_valid_cid, hq, hb]
        constructor
        · intro hc
          exact Option.noConfusion hc
        · rintro (⟨i, hi, hmin⟩ | ⟨_, i, hi, hmin⟩)
          · have h2 := (searchPat_eq_some_iff qmPre text.toList m).mpr ⟨i, hi, hmin⟩
            rw [hq] at h2
            exact Option.noConfusion h2
          · have h2 := (searchPat_eq_some_iff bafyPre text.toList m).mpr ⟨i, hi, hmin⟩
            rw [hb] at h2
            exact Option.noConfusion h2

/-- Witness for C8: the characterization instantiated at the empty string —
both patterns match nowhere, so the extractor returns nothing (and, being
total, does not throw). -/
theorem c8_extractor_characterization_witness :
    is_valid_cid "" = none :=
  (c8_extractor_characterization "").1.mpr
    ⟨fun i => by
        show matchHere qmPre (List.drop i "".toList) = none
        have he : "".toList = ([] : List Char) := rfl
        rw [he, List.drop_nil]
        decide,
     fun i => by
        show matchHere bafyPre (List.drop i "".toList) = none
        have he : "".toList = ([] : List Char) := rfl
        rw [he, List.drop_nil]
        decide⟩

/-- Pattern order beats text position: with a CIDv1-shaped address earlier
in the text than a CIDv0-shaped one, the extractor still returns the CIDv0
match, because the CIDv0 pattern is tried first. -/
theorem extractor_pattern_order_demo :
    is_valid_cid (cidB ++ " " ++ cidQ) = some cidQ := by decide

/-! The operator unpin (C9, C10). -/

/-- C9: the operator unpin reports success on a gateway-confirmed HTTP 200
and also when the gateway rejects the request with a message whose
lowercased text contains the phrase "not pinned" (the "was not pinned"
reason — the end state matches the intent), and reports failure on any
other gateway rejection. -/
theorem c9_unpin_result (s : SysState) (cid : String) :
    (unpin_file GwUnpin.ok s cid).1 = true
    ∧ (∀ msg, containsSub notPinnedChars (msg.toList.map Char.toLower) = true →
        (unpin_file (GwUnpin.rejected msg) s cid).1 = true)
    ∧ (∀ msg, containsSub notPinnedChars (msg.toList.map Char.toLower) = false →
        (unpin_file (GwUnpin.rejected msg) s cid).1 = false) := by
  refine ⟨rfl, fun msg h => ?_, fun msg h => ?_⟩ <;> simpa [unpin_file] using h

/-- Witness for C9: a "Was Not Pinned" rejection (any letter case) counts
as success; a rejection with a different reason counts as failure. -/
theorem c9_unpin_result_witness :
    (unpin_file GwUnpin.ok ⟨[], []⟩ cidQ).1 = true
    ∧ (unpin_file (GwUnpin.rejected "pin/rm: CID Was Not Pinned") ⟨[], []⟩ cidQ).1 = true
    ∧ (unpin_file (GwUnpin.rejected "pin/rm: invalid path") ⟨[], []⟩ cidQ).1 = false :=
  have h := c9_unpin_result ⟨[], []⟩ cidQ
  ⟨h.1, h.2.1 "pin/rm: CID Was Not Pinned" (by decide),
   h.2.2 "pin/rm: invalid path" (by decide)⟩

/-- C10: when the gateway is unreachable (transport error), the operator
unpin returns failure yet has already mutated state: the PinRecord for the
CID is gone from the store and the file named by the CID is gone from the
download directory — the reported failure does not imply the state was left
unchanged. -/
theorem c10_unpin_transport_mutates (s : SysState) (cid : String) :
    (unpin_file GwUnpin.transportError s cid).1 = false
    ∧ lookupPin (unpin_file GwUnpin.transportError s cid).2.store cid = none
    ∧ cid ∉ (unpin_file GwUnpin.transportError s cid).2.files := by
  refine ⟨rfl, ?_, ?_⟩
  · show lookupPin (removePin s.store cid) cid = none
    rw [lookupPin_removePin]
    simp
  · show cid ∉ removeFile s.files cid
    rw [mem_removeFile]
    simp

/-- Witness for C10 at a concrete store holding the CID and its file. -/
theorem c10_unpin_transport_mutates_witness :
    (unpin_file GwUnpin.transportError ⟨[(cidQ, ⟨0, 100, false⟩)], [cidQ]⟩ cidQ).1 = false
    ∧ lookupPin (unpin_file GwUnpin.transportError
        ⟨[(cidQ, ⟨0, 100, false⟩)], [cidQ]⟩ cidQ).2.store cidQ = none
    ∧ cidQ ∉ (unpin_file GwUnpin.transportError
        ⟨[(cidQ, ⟨0, 100, false⟩)], [cidQ]⟩ cidQ).2.files :=
  c10_unpin_transport_mutates ⟨[(cidQ, ⟨0, 100, false⟩)], [cidQ]⟩ cidQ

end SignalBot
